import Mathlib

/-!
Verification of the bip353-rs integration layer against its specification.

The Rust sources are shallowly embedded: strings are lists of characters,
`HashMap` values are association lists with overwrite-on-insert semantics,
`AtomicU64` counters are naturals reduced modulo 2^64 at each `fetch_add`,
`SystemTime` instants and `Duration` values are naturals (nanoseconds), and
the external `bitcoin_payment_instructions` backend is an explicit function
argument.  Mutable state (cache contents, metric counters) is threaded
explicitly.  `f64`-valued rates are modelled as exact rationals; the only
fact proved about them concerns the zero-denominator branch, where the code
returns the exact literal `0.0`.
-/

/-- Character strings, modelling Rust `String` / `&str` as character lists. -/
abbrev Str := List Char

/-- The Unicode White_Space property, as used by Rust `char::is_whitespace`
(and hence by `str::trim`). -/
def isRustWhitespace (c : Char) : Bool :=
  c.val = 0x09 || c.val = 0x0A || c.val = 0x0B || c.val = 0x0C || c.val = 0x0D ||
  c.val = 0x20 || c.val = 0x85 || c.val = 0xA0 || c.val = 0x1680 ||
  (0x2000 ≤ c.val && c.val ≤ 0x200A) ||
  c.val = 0x2028 || c.val = 0x2029 || c.val = 0x202F || c.val = 0x205F ||
  c.val = 0x3000

/-- Rust `str::trim_start`: drop leading whitespace. -/
def rustTrimLeft (l : Str) : Str :=
  l.dropWhile isRustWhitespace

/-- Rust `str::trim_end`: drop trailing whitespace. -/
def rustTrimRight : Str → Str
  | [] => []
  | c :: cs =>
    match rustTrimRight cs with
    | [] => if isRustWhitespace c then [] else [c]
    | r => c :: r

/-- Rust `str::trim`: drop leading and trailing whitespace. -/
def rustTrim (l : Str) : Str :=
  rustTrimRight (rustTrimLeft l)

/-- Rust `str::split(sep).collect()`: splits at every separator, keeping
empty segments; the empty string yields one empty segment. -/
def splitSep (sep : Char) : Str → List Str
  | [] => [[]]
  | c :: cs =>
    match splitSep sep cs with
    | [] => [[]]
    | p :: ps => if c = sep then [] :: p :: ps else (c :: p) :: ps

/-- The `addr.strip_prefix("₿").unwrap_or(addr)` step of `parse_address`
(src/lib.rs line 38): remove a single leading currency sign if present. -/
def stripBtcSign : Str → Str
  | [] => []
  | c :: cs => if c = '₿' then cs else c :: cs

/-- The error taxonomy of src/error.rs (`Bip353Error`). -/
inductive Bip353Error where
  | DnsError (msg : Str)
  | InvalidAddress (msg : Str)
  | InvalidRecord (msg : Str)
  | DnssecError (msg : Str)
  | ImplError (msg : Str)
  | NetworkError (msg : Str)
deriving DecidableEq

/-- src/lib.rs `parse_address`: trim, strip one currency sign, split on
`@`, demand exactly two parts, trim the parts, demand both non-empty. -/
def parse_address (address : Str) : Except Bip353Error (Str × Str) :=
  let addr := rustTrim address
  let addr := stripBtcSign addr
  match splitSep '@' addr with
  | [part0, part1] =>
    let user := rustTrim part0
    let domain := rustTrim part1
    if user.isEmpty || domain.isEmpty then
      .error (.InvalidAddress "User and domain cannot be empty".data)
    else
      .ok (user, domain)
  | _ => .error (.InvalidAddress "Address must be in format user@domain".data)

example : parse_address "alice@example.com".data =
    .ok ("alice".data, "example.com".data) := by rfl

example : parse_address "₿bob@bitcoin.org".data =
    .ok ("bob".data, "bitcoin.org".data) := by rfl

example : parse_address "  charlie@example.org  ".data =
    .ok ("charlie".data, "example.org".data) := by rfl

/-- Payment method of the external `bitcoin_payment_instructions` crate:
on-chain address, BOLT11 invoice, or BOLT12 offer.  The payloads are the
collaborator's rendered text. -/
inductive PaymentMethod where
  | OnChain (addr : Str)
  | LightningBolt11 (invoice : Str)
  | LightningBolt12 (offer : Str)
deriving DecidableEq

/-- A method of a configurable-amount instruction: either an unresolved
LNURL-pay placeholder or a resolved concrete method. -/
inductive PossiblyResolvedPaymentMethod where
  | LNURLPay (callback : Str)
  | Resolved (method : PaymentMethod)
deriving DecidableEq

/-- An amount of the external crate; only its decimal rendering
(`btc_decimal_rounding_up_to_sats`) is observed by this repository. -/
structure Amount where
  btc_decimal_rounding_up_to_sats : Str
deriving DecidableEq

/-- Fixed-amount payment instructions of the external crate: a method list
and an optional maximum amount. -/
structure FixedAmountPaymentInstructions where
  methods : List PaymentMethod
  max_amount : Option Amount
deriving DecidableEq

/-- Configurable-amount payment instructions of the external crate. -/
structure ConfigurableAmountPaymentInstructions where
  methods : List PossiblyResolvedPaymentMethod
deriving DecidableEq

/-- The instruction variants returned by the resolution backend. -/
inductive PaymentInstructions where
  | FixedAmount (fixed : FixedAmountPaymentInstructions)
  | ConfigurableAmount (configurable : ConfigurableAmountPaymentInstructions)
deriving DecidableEq

/-- src/types.rs `PaymentType`. -/
inductive PaymentType where
  | OnChain
  | Lightning
  | LightningOffer
  | Unknown
deriving DecidableEq

/-- The `Display` rendering of `PaymentType` (src/types.rs lines 27-36). -/
def PaymentType.displayString : PaymentType → Str
  | .OnChain => "on-chain".data
  | .Lightning => "lightning".data
  | .LightningOffer => "lightning-offer".data
  | .Unknown => "unknown".data

/-- src/types.rs `OriginalInstructions`. -/
inductive OriginalInstructions where
  | FixedAmount (fixed : FixedAmountPaymentInstructions)
  | ConfigurableAmount (configurable : ConfigurableAmountPaymentInstructions)
deriving DecidableEq

/-- The `From<PaymentInstructions>` conversion (src/types.rs lines 67-74). -/
def originalOfInstructions : PaymentInstructions → OriginalInstructions
  | .FixedAmount fixed => .FixedAmount fixed
  | .ConfigurableAmount configurable => .ConfigurableAmount configurable

/-- Parameter map of a `PaymentInfo`, modelling `HashMap<String, String>`
as an association list whose insert overwrites the value of an existing
key in place and appends a fresh key at the end. -/
abbrev Params := List (Str × Str)

/-- `HashMap::insert` on the association-list model: overwrite the value
stored under an existing key, append a new binding otherwise. -/
def paramsInsert (key value : Str) : Params → Params
  | [] => [(key, value)]
  | (k, v) :: rest =>
    if k = key then (k, value) :: rest else (k, v) :: paramsInsert key value rest

/-- src/types.rs `PaymentInfo`. -/
structure PaymentInfo where
  uri : Str
  payment_type : PaymentType
  is_reusable : Bool
  parameters : Params
  original_instructions : OriginalInstructions
deriving DecidableEq

/-- One iteration of the fixed-amount classification loop of
`PaymentInfo::from_instructions` (src/types.rs lines 86-99): the state is
the pair (payment_type, is_reusable) of mutable locals. -/
def classifyFixedStep (acc : PaymentType × Bool) (method : PaymentMethod) :
    PaymentType × Bool :=
  match method with
  | .OnChain _ => (.OnChain, acc.2)
  | .LightningBolt11 _ => (.Lightning, false)
  | .LightningBolt12 _ => (.LightningOffer, acc.2)

/-- One iteration of the configurable-amount classification loop of
`PaymentInfo::from_instructions` (src/types.rs lines 102-123). -/
def classifyConfigurableStep (acc : PaymentType × Bool)
    (method : PossiblyResolvedPaymentMethod) : PaymentType × Bool :=
  match method with
  | .LNURLPay _ => (.Lightning, false)
  | .Resolved m =>
    match m with
    | .OnChain _ => (.OnChain, acc.2)
    | .LightningBolt11 _ => (.Lightning, false)
    | .LightningBolt12 _ => (.LightningOffer, acc.2)

/-- The classification pass of `from_instructions`: a left-to-right fold
over all returned methods starting from (Unknown, true). -/
def classifyInstructions (instructions : PaymentInstructions) : PaymentType × Bool :=
  match instructions with
  | .FixedAmount fixed =>
    fixed.methods.foldl classifyFixedStep (PaymentType.Unknown, true)
  | .ConfigurableAmount configurable =>
    configurable.methods.foldl classifyConfigurableStep (PaymentType.Unknown, true)

/-- Splits a list at the first occurrence of a separator, the separator
excluded, returning `none` when the separator is absent.  Models Rust
`str::find` followed by index slicing. -/
def splitAtFirst (sep : Char) : Str → Option (Str × Str)
  | [] => none
  | c :: cs =>
    if c = sep then some ([], cs)
    else
      match splitAtFirst sep cs with
      | none => none
      | some (l, r) => some (c :: l, r)

/-- The parameter-extraction pass of `from_instructions` (src/types.rs
lines 128-137): take the text after the first `?`, split it on `&`, and
split each pair at the first `=`; pairs without `=` are skipped. -/
def parametersOfUri (uri : Str) : Params :=
  match splitAtFirst '?' uri with
  | none => []
  | some (_, query) =>
    (splitSep '&' query).foldl
      (fun acc pair =>
        match splitAtFirst '=' pair with
        | none => acc
        | some (key, value) => paramsInsert key value acc)
      []

/-- src/types.rs `PaymentInfo::from_instructions`. -/
def PaymentInfo.from_instructions (instructions : PaymentInstructions)
    (uri : Str) : PaymentInfo :=
  let cls := classifyInstructions instructions
  { uri := uri
    payment_type := cls.1
    is_reusable := cls.2
    parameters := parametersOfUri uri
    original_instructions := originalOfInstructions instructions }

/-- The `ParseError` taxonomy of the external `bitcoin_payment_instructions`
crate, as consumed by the `From` conversion in src/error.rs; payloads not
inspected by this repository are kept as opaque rendered text. -/
inductive ParseError where
  | InvalidOnChain (err : Str)
  | InvalidBolt11 (err : Str)
  | InvalidBolt12 (err : Str)
  | WrongNetwork
  | InconsistentInstructions (msg : Str)
  | InvalidInstructions (msg : Str)
  | UnknownPaymentInstructions
  | UnknownRequiredParameter
  | HrnResolutionError (msg : Str)
  | InstructionsExpired
deriving DecidableEq

/-- The `From<bitcoin_payment_instructions::ParseError> for Bip353Error`
conversion (src/error.rs lines 33-68). -/
def bip353ErrorOfParseError : ParseError → Bip353Error
  | .InvalidOnChain _ => .InvalidRecord "Invalid on-chain address format".data
  | .InvalidBolt11 _ => .InvalidRecord "Invalid Lightning invoice format".data
  | .InvalidBolt12 _ => .InvalidRecord "Invalid Lightning offer format".data
  | .WrongNetwork => .InvalidRecord "Payment instruction for wrong network".data
  | .InconsistentInstructions msg =>
    .InvalidRecord ("Inconsistent payment instructions: ".data ++ msg)
  | .InvalidInstructions msg =>
    .InvalidRecord ("Invalid payment instructions: ".data ++ msg)
  | .UnknownPaymentInstructions =>
    .InvalidRecord "Unknown payment instruction format".data
  | .UnknownRequiredParameter =>
    .InvalidRecord "Unknown required parameter in payment URI".data
  | .HrnResolutionError msg => .DnsError msg
  | .InstructionsExpired => .InvalidRecord "Payment instructions have expired".data

/-- The `bitcoin::Network` values reachable through this repository's
configuration surface (src/config.rs). -/
inductive Network where
  | Bitcoin
  | Testnet
  | Signet
  | Regtest
deriving DecidableEq

/-- src/config.rs `ResolverConfig`; the DNS resolver socket address is kept
as its rendered text, it is only handed to the backend collaborator. -/
structure ResolverConfig where
  dns_resolver : Str
  enforce_dnssec : Bool
  timeout_ms : Nat
  allow_http_fallback : Bool
  network : Network
deriving DecidableEq

/-- `ResolverConfig::default` (src/config.rs lines 26-37). -/
def ResolverConfig.defaultConfig : ResolverConfig :=
  { dns_resolver := "8.8.8.8:53".data
    enforce_dnssec := true
    timeout_ms := 5000
    allow_http_fallback := true
    network := .Bitcoin }

/-- `ResolverConfig::testnet` (src/config.rs lines 41-46). -/
def ResolverConfig.testnet : ResolverConfig :=
  { ResolverConfig.defaultConfig with network := .Testnet }

/-- `ResolverConfig::signet` (src/config.rs lines 49-54). -/
def ResolverConfig.signet : ResolverConfig :=
  { ResolverConfig.defaultConfig with network := .Signet }

/-- `ResolverConfig::regtest` (src/config.rs lines 57-62). -/
def ResolverConfig.regtest : ResolverConfig :=
  { ResolverConfig.defaultConfig with network := .Regtest }

/-- src/resolver.rs `ResolverType`. -/
inductive ResolverType where
  | DNS
  | HTTP
deriving DecidableEq

/-- The external resolution backend: `PaymentInstructions::parse` applied
to one HRN resolver.  Arguments mirror the call in src/resolver.rs: the
reassembled address, the configured network and the proof-of-payment
callback support flag. -/
abbrev Backend := Str → Network → Bool → Except ParseError PaymentInstructions

/-- The immutable part of src/resolver.rs `Bip353Resolver`: resolver type
and configuration.  Whether the optional cache and metrics features are
configured, and their mutable contents, live in `ResolverMutState`. -/
structure Bip353Resolver where
  resolver_type : ResolverType
  config : ResolverConfig
deriving DecidableEq

/-- The URI construction of `Bip353Resolver::resolve` (src/resolver.rs
lines 200-257), from the instructions returned by the backend. -/
def uriFromInstructions (instructions : PaymentInstructions) :
    Except Bip353Error Str :=
  match instructions with
  | .FixedAmount fixed =>
    match fixed.methods.head? with
    | some method =>
      match method with
      | .OnChain addr =>
        match fixed.max_amount with
        | some amount =>
          .ok ("bitcoin:".data ++ addr ++ "?amount=".data ++
            amount.btc_decimal_rounding_up_to_sats)
        | none => .ok ("bitcoin:".data ++ addr)
      | .LightningBolt11 invoice => .ok ("bitcoin:?lightning=".data ++ invoice)
      | .LightningBolt12 offer => .ok ("bitcoin:?lno=".data ++ offer)
    | none => .error (.InvalidRecord "No payment methods found".data)
  | .ConfigurableAmount configurable =>
    match configurable.methods.head? with
    | some method =>
      match method with
      | .LNURLPay _ => .ok "bitcoin:".data
      | .Resolved m =>
        match m with
        | .OnChain addr => .ok ("bitcoin:".data ++ addr)
        | .LightningBolt11 invoice => .ok ("bitcoin:?lightning=".data ++ invoice)
        | .LightningBolt12 offer => .ok ("bitcoin:?lno=".data ++ offer)
    | none => .error (.InvalidRecord "No payment methods found".data)

/-- src/resolver.rs `Bip353Resolver::resolve`: select the backend by
resolver type, call it with `user@domain`, the configured network and
callback support, translate its failure, build the URI and the
`PaymentInfo`. -/
def Bip353Resolver.resolve (dnsBackend httpBackend : Backend)
    (r : Bip353Resolver) (user domain : Str) : Except Bip353Error PaymentInfo :=
  let address := user ++ '@' :: domain
  let parsed :=
    match r.resolver_type with
    | .DNS => dnsBackend address r.config.network true
    | .HTTP => httpBackend address r.config.network true
  match parsed with
  | .error e => .error (bip353ErrorOfParseError e)
  | .ok instructions =>
    match uriFromInstructions instructions with
    | .error e => .error e
    | .ok uri => .ok (PaymentInfo.from_instructions instructions uri)

/-- src/resolver.rs `Bip353Resolver::resolve_address`: parse the address,
then resolve the user/domain pair. -/
def Bip353Resolver.resolve_address (dnsBackend httpBackend : Backend)
    (r : Bip353Resolver) (address : Str) : Except Bip353Error PaymentInfo :=
  match parse_address address with
  | .error e => .error e
  | .ok (user, domain) => r.resolve dnsBackend httpBackend user domain

/-- Nanoseconds of Rust `Duration::MAX` (`u64::MAX` seconds plus
999 999 999 nanoseconds); `SystemTime::elapsed` failures default to it in
`AddressCache::get`.  Every value representable as a `Duration` is at most
this bound. -/
def durationMaxNanos : Nat := (2 ^ 64 - 1) * 1000000000 + 999999999

/-- src/resolver.rs `CacheEntry`: cached payment info with its insertion
timestamp and time-to-live, both in nanoseconds. -/
structure CacheEntry where
  payment_info : PaymentInfo
  cached_at : Nat
  ttl : Nat
deriving DecidableEq

/-- Lookup in the association-list model of `HashMap<String, CacheEntry>`. -/
def entriesLookup (key : Str) : List (Str × CacheEntry) → Option CacheEntry
  | [] => none
  | (k, e) :: rest => if k = key then some e else entriesLookup key rest

/-- `HashMap::insert` on the association-list model: overwrite in place or
append. -/
def entriesInsert (key : Str) (entry : CacheEntry) :
    List (Str × CacheEntry) → List (Str × CacheEntry)
  | [] => [(key, entry)]
  | (k, e) :: rest =>
    if k = key then (k, entry) :: rest else (k, e) :: entriesInsert key entry rest

/-- `HashMap::remove` on the association-list model: drop every binding of
the key (a `HashMap` holds at most one, so this coincides with removing
it). -/
def entriesRemove (key : Str) :
    List (Str × CacheEntry) → List (Str × CacheEntry)
  | [] => []
  | (k, e) :: rest =>
    if k = key then entriesRemove key rest else (k, e) :: entriesRemove key rest

/-- src/resolver.rs `AddressCache`: the entry map plus the default TTL
stamped on every insert. -/
structure AddressCache where
  entries : List (Str × CacheEntry)
  default_ttl : Nat
deriving DecidableEq

/-- `AddressCache::new` (src/resolver.rs lines 69-74). -/
def AddressCache.new (default_ttl : Nat) : AddressCache :=
  { entries := [], default_ttl := default_ttl }

/-- The elapsed age of an entry at clock `now`:
`entry.cached_at.elapsed().unwrap_or(Duration::MAX)` — the error branch of
`SystemTime::elapsed`, taken when the timestamp lies in the future, defaults
to `Duration::MAX`. -/
def entryElapsed (cached_at now : Nat) : Nat :=
  if cached_at ≤ now then now - cached_at else durationMaxNanos

/-- src/resolver.rs `AddressCache::get`: return the stored value only when
its elapsed age is strictly below its TTL.  The Rust method reads under a
shared lock and cannot mutate the map, so it is a pure observation here. -/
def AddressCache.get (c : AddressCache) (now : Nat) (hrn : Str) :
    Option PaymentInfo :=
  match entriesLookup hrn c.entries with
  | some entry =>
    if entryElapsed entry.cached_at now < entry.ttl then some entry.payment_info
    else none
  | none => none

/-- src/resolver.rs `AddressCache::insert`: unconditionally overwrite,
stamping the current time and the cache's default TTL. -/
def AddressCache.insert (c : AddressCache) (now : Nat) (hrn : Str)
    (payment_info : PaymentInfo) : AddressCache :=
  { c with
    entries := entriesInsert hrn
      { payment_info := payment_info, cached_at := now, ttl := c.default_ttl }
      c.entries }

/-- src/resolver.rs `AddressCache::invalidate`: remove one entry. -/
def AddressCache.invalidate (c : AddressCache) (hrn : Str) : AddressCache :=
  { c with entries := entriesRemove hrn c.entries }

/-- The body of `Bip353Resolver::clear_cache` (src/resolver.rs lines
329-334): `entries.clear()`. -/
def AddressCache.clearAll (c : AddressCache) : AddressCache :=
  { c with entries := [] }

/-- Modulus of the `AtomicU64` counters: `fetch_add` wraps at 2^64. -/
def u64Mod : Nat := 2 ^ 64

/-- src/metrics.rs `Bip353Metrics`: the six counters, each held modulo
2^64. -/
structure Bip353Metrics where
  resolutions_total : Nat
  resolutions_success : Nat
  resolutions_failed : Nat
  cache_hits : Nat
  cache_misses : Nat
  address_reuse_detected : Nat
deriving DecidableEq

/-- `Bip353Metrics::new` / `Default`: all counters zero. -/
def Bip353Metrics.new : Bip353Metrics :=
  { resolutions_total := 0, resolutions_success := 0, resolutions_failed := 0
    cache_hits := 0, cache_misses := 0, address_reuse_detected := 0 }

/-- One `fetch_add(1, Relaxed)` on a `u64` counter. -/
def fetchAddOne (x : Nat) : Nat := (x + 1) % u64Mod

/-- src/metrics.rs `record_resolution_success`: bump total and success.
The domain and duration arguments are ignored by the implementation. -/
def Bip353Metrics.record_resolution_success (m : Bip353Metrics) : Bip353Metrics :=
  { m with
    resolutions_total := fetchAddOne m.resolutions_total
    resolutions_success := fetchAddOne m.resolutions_success }

/-- src/metrics.rs `record_resolution_failure`: bump total and failed.
The domain and error-type arguments are ignored by the implementation. -/
def Bip353Metrics.record_resolution_failure (m : Bip353Metrics) : Bip353Metrics :=
  { m with
    resolutions_total := fetchAddOne m.resolutions_total
    resolutions_failed := fetchAddOne m.resolutions_failed }

/-- src/metrics.rs `record_cache_hit`. -/
def Bip353Metrics.record_cache_hit (m : Bip353Metrics) : Bip353Metrics :=
  { m with cache_hits := fetchAddOne m.cache_hits }

/-- src/metrics.rs `record_cache_miss`. -/
def Bip353Metrics.record_cache_miss (m : Bip353Metrics) : Bip353Metrics :=
  { m with cache_misses := fetchAddOne m.cache_misses }

/-- src/metrics.rs `record_address_reuse`. -/
def Bip353Metrics.record_address_reuse (m : Bip353Metrics) : Bip353Metrics :=
  { m with address_reuse_detected := fetchAddOne m.address_reuse_detected }

/-- src/metrics.rs `ResolutionStats`; the `f64` success rate is modelled as
an exact rational. -/
structure ResolutionStats where
  total : Nat
  success : Nat
  failed : Nat
  success_rate : ℚ
deriving DecidableEq

/-- src/metrics.rs `CacheStats`; the `f64` hit rate is modelled as an exact
rational. -/
structure CacheStats where
  hits : Nat
  misses : Nat
  total : Nat
  hit_rate : ℚ
deriving DecidableEq

/-- src/metrics.rs `get_resolution_stats`: snapshot the three resolution
counters; the rate is `success / total` when `total > 0` and the exact
literal `0.0` otherwise. -/
def Bip353Metrics.get_resolution_stats (m : Bip353Metrics) : ResolutionStats :=
  { total := m.resolutions_total
    success := m.resolutions_success
    failed := m.resolutions_failed
    success_rate :=
      if m.resolutions_total > 0 then
        (m.resolutions_success : ℚ) / (m.resolutions_total : ℚ)
      else 0 }

/-- src/metrics.rs `get_cache_stats`: snapshot hits and misses; their sum
is computed with `u64` addition at snapshot time. -/
def Bip353Metrics.get_cache_stats (m : Bip353Metrics) : CacheStats :=
  let total := (m.cache_hits + m.cache_misses) % u64Mod
  { hits := m.cache_hits
    misses := m.cache_misses
    total := total
    hit_rate := if total > 0 then (m.cache_hits : ℚ) / (total : ℚ) else 0 }

/-- src/resolver.rs `AddressWarning`. -/
inductive AddressWarning where
  | AddressReused (tx_id : Str)
  | StaleRecord (age : Nat)
  | DnssecWarning (message : Str)
deriving DecidableEq

/-- src/resolver.rs `SafePaymentInfo`: payment info with warnings and the
check timestamp. -/
structure SafePaymentInfo where
  payment_info : PaymentInfo
  warnings : List AddressWarning
  last_checked : Nat
deriving DecidableEq

/-- The mutable contents reached through the `cache` and `metrics` fields
of `Bip353Resolver` — `None` means the feature is not configured, exactly
as in the Rust struct. -/
structure ResolverMutState where
  cache : Option AddressCache
  metrics : Option Bip353Metrics
deriving DecidableEq

/-- `Bip353Resolver::with_config` (src/resolver.rs lines 120-130): DNS
resolver type, no cache, no metrics.  Construction never fails. -/
def Bip353Resolver.with_config (config : ResolverConfig) :
    Bip353Resolver × ResolverMutState :=
  ({ resolver_type := .DNS, config := config }, { cache := none, metrics := none })

/-- `Bip353Resolver::with_enhanced_config` (src/resolver.rs lines 148-175):
optionally attach an empty cache with the given TTL and fresh metrics. -/
def Bip353Resolver.with_enhanced_config (config : ResolverConfig)
    (enable_cache : Bool) (cache_ttl : Nat) (enable_metrics : Bool) :
    Bip353Resolver × ResolverMutState :=
  ({ resolver_type := .DNS, config := config },
   { cache := if enable_cache then some (AddressCache.new cache_ttl) else none
     metrics := if enable_metrics then some Bip353Metrics.new else none })

/-- `check_basic_warnings` (src/resolver.rs lines 317-326): always empty. -/
def Bip353Resolver.check_basic_warnings (_info : PaymentInfo) :
    List AddressWarning :=
  []

/-- src/resolver.rs `Bip353Resolver::resolve_with_safety_checks`: cache
lookup (recording hit/miss when metrics are configured), falling back to
`resolve`; on success insert into the cache, record a resolution success
and attach the basic warnings; on a resolution failure the `?` operator
propagates the error directly.  `now` is the wall clock for the call. -/
def Bip353Resolver.resolve_with_safety_checks (dnsBackend httpBackend : Backend)
    (r : Bip353Resolver) (now : Nat) (st : ResolverMutState)
    (user domain : Str) : Except Bip353Error SafePaymentInfo × ResolverMutState :=
  let hrn := user ++ '@' :: domain
  let hit : Option PaymentInfo :=
    match st.cache with
    | some cache => cache.get now hrn
    | none => none
  match hit with
  | some cached =>
    let st1 := { st with metrics := st.metrics.map (·.record_cache_hit) }
    (.ok { payment_info := cached, warnings := [], last_checked := now }, st1)
  | none =>
    let st1 :=
      if st.cache.isSome then
        { st with metrics := st.metrics.map (·.record_cache_miss) }
      else st
    match r.resolve dnsBackend httpBackend user domain with
    | .error e => (.error e, st1)
    | .ok payment_info =>
      let st2 := { st1 with
        cache := st1.cache.map (fun (c : AddressCache) => c.insert now hrn payment_info) }
      let st3 := { st2 with
        metrics := st2.metrics.map (fun (m : Bip353Metrics) => m.record_resolution_success) }
      let warnings := Bip353Resolver.check_basic_warnings payment_info
      (.ok { payment_info := payment_info, warnings := warnings,
             last_checked := now }, st3)

/-- src/resolver.rs `Bip353Resolver::clear_cache`. -/
def Bip353Resolver.clear_cache (st : ResolverMutState) : ResolverMutState :=
  { st with cache := st.cache.map AddressCache.clearAll }

/-- src/resolver.rs `Bip353Resolver::invalidate_cache`. -/
def Bip353Resolver.invalidate_cache (st : ResolverMutState) (hrn : Str) :
    ResolverMutState :=
  { st with cache := st.cache.map (·.invalidate hrn) }

/-- The rendering of `Bip353Error` used for FFI error strings
(`to_string_representation`, the `thiserror` `Display` of src/error.rs). -/
def Bip353Error.to_string_representation : Bip353Error → Str
  | .DnsError msg => "DNS error: ".data ++ msg
  | .InvalidAddress msg => "Invalid address: ".data ++ msg
  | .InvalidRecord msg => "Invalid record: ".data ++ msg
  | .DnssecError msg => "DNSSEC error: ".data ++ msg
  | .ImplError msg => "Implementation error: ".data ++ msg
  | .NetworkError msg => "Network error: ".data ++ msg

/-- A `*const c_char` argument as seen by the FFI layer: null, text that is
not valid UTF-8, or decoded text. -/
inductive CStrInput where
  | nullPtr
  | invalidUtf8
  | valid (text : Str)
deriving DecidableEq

/-- `CString::new` fails exactly when the text holds an interior NUL. -/
def containsNulByte (s : Str) : Bool :=
  s.any (fun c => c.val = 0)

/-- src/ffi.rs `Bip353Result`: the flat caller-owned record; a `none`
string field models a null pointer. -/
structure Bip353ResultRecord where
  success : Bool
  uri : Option Str
  payment_type : Option Str
  is_reusable : Bool
  error : Option Str
deriving DecidableEq

/-- src/ffi.rs `create_result_ptr`: marshal a resolution outcome into a
flat record; a NUL inside any marshalled string makes `CString::new` fail
and the whole call return null (`none`). -/
def create_result_ptr (result : Except Bip353Error PaymentInfo) :
    Option Bip353ResultRecord :=
  match result with
  | .ok info =>
    if containsNulByte info.uri then none
    else if containsNulByte info.payment_type.displayString then none
    else
      some { success := true
             uri := some info.uri
             payment_type := some info.payment_type.displayString
             is_reusable := info.is_reusable
             error := none }
  | .error err =>
    if containsNulByte err.to_string_representation then none
    else
      some { success := false
             uri := none
             payment_type := none
             is_reusable := false
             error := some err.to_string_representation }

/-- src/ffi.rs `bip353_resolver_create`: default configuration; the only
failure is a construction failure, which cannot occur. -/
def bip353_resolver_create : Option (Bip353Resolver × ResolverMutState) :=
  some (Bip353Resolver.with_config ResolverConfig.defaultConfig)

/-- src/ffi.rs `bip353_resolver_create_with_network`: null or invalid input
gives a null handle; the network name selects a configuration, any other
name gives a null handle. -/
def bip353_resolver_create_with_network (network_name : CStrInput) :
    Option (Bip353Resolver × ResolverMutState) :=
  match network_name with
  | .nullPtr => none
  | .invalidUtf8 => none
  | .valid s =>
    let config : Option ResolverConfig :=
      if s = "main".data ∨ s = "mainnet".data ∨ s = "bitcoin".data then
        some ResolverConfig.defaultConfig
      else if s = "test".data ∨ s = "testnet".data then
        some ResolverConfig.testnet
      else if s = "signet".data then
        some ResolverConfig.signet
      else if s = "regtest".data then
        some ResolverConfig.regtest
      else none
    match config with
    | none => none
    | some c => some (Bip353Resolver.with_config c)

/-- src/ffi.rs `bip353_resolve_address`: null handle or null/invalid
address gives null; otherwise run `Bip353Resolver::resolve_address` on the
runtime and marshal the outcome. -/
def bip353_resolve_address (dnsBackend httpBackend : Backend)
    (handle : Option Bip353Resolver) (address : CStrInput) :
    Option Bip353ResultRecord :=
  match handle with
  | none => none
  | some r =>
    match address with
    | .nullPtr => none
    | .invalidUtf8 => none
    | .valid a =>
      create_result_ptr (r.resolve_address dnsBackend httpBackend a)

/-- src/ffi.rs `bip353_resolve`: null handle or null/invalid user or
domain gives null; otherwise run `Bip353Resolver::resolve` and marshal the
outcome. -/
def bip353_resolve (dnsBackend httpBackend : Backend)
    (handle : Option Bip353Resolver) (user domain : CStrInput) :
    Option Bip353ResultRecord :=
  match handle with
  | none => none
  | some r =>
    match user, domain with
    | .valid u, .valid d =>
      create_result_ptr (r.resolve dnsBackend httpBackend u d)
    | _, _ => none

lemma dropWhileAppendAll {p : Char → Bool} {a : Str} (b : Str)
    (h : ∀ c ∈ a, p c = true) : (a ++ b).dropWhile p = b.dropWhile p := by
  induction a with
  | nil => rfl
  | cons c cs ih =>
    have hc : p c = true := h c (by simp)
    simp only [List.cons_append, List.dropWhile_cons, hc, if_true]
    exact ih fun x hx => h x (by simp [hx])

lemma dropWhileAppendKeep {p : Char → Bool} {a : Str} (b : Str)
    (h : a.dropWhile p ≠ []) : (a ++ b).dropWhile p = a.dropWhile p ++ b := by
  induction a with
  | nil => simp at h
  | cons c cs ih =>
    by_cases hc : p c = true
    · simp only [List.dropWhile_cons, hc, if_true] at h ⊢
      simp only [List.cons_append, List.dropWhile_cons, hc, if_true]
      exact ih h
    · simp only [List.cons_append, List.dropWhile_cons, hc]
      simp [hc]

lemma dropWhileHeadFalse {p : Char → Bool} {l t : Str} {c : Char}
    (h : l.dropWhile p = c :: t) : p c = false := by
  induction l with
  | nil => simp at h
  | cons a as ih =>
    by_cases ha : p a = true
    · simp only [List.dropWhile_cons, ha, if_true] at h
      exact ih h
    · simp only [List.dropWhile_cons, ha, if_false] at h
      cases h
      simpa using ha

lemma dropWhileIdem (p : Char → Bool) (l : Str) :
    (l.dropWhile p).dropWhile p = l.dropWhile p := by
  cases h : l.dropWhile p with
  | nil => rfl
  | cons c t =>
    have hc := dropWhileHeadFalse h
    simp [List.dropWhile_cons, hc]

lemma memOfMemDropWhile {p : Char → Bool} {l : Str} {x : Char}
    (h : x ∈ l.dropWhile p) : x ∈ l := by
  induction l with
  | nil => simp at h
  | cons c cs ih =>
    by_cases hc : p c = true
    · simp only [List.dropWhile_cons, hc, if_true] at h
      exact List.mem_cons_of_mem _ (ih h)
    · simp only [List.dropWhile_cons, hc, if_false] at h
      simpa using h

lemma trimRightEqNilIff (l : Str) :
    rustTrimRight l = [] ↔ ∀ c ∈ l, isRustWhitespace c = true := by
  induction l with
  | nil => simp [rustTrimRight]
  | cons c cs ih =>
    constructor
    · intro h
      cases hcs : rustTrimRight cs with
      | nil =>
        simp only [rustTrimRight, hcs] at h
        intro x hx
        rcases List.mem_cons.mp hx with rfl | hx
        · by_contra hc
          simp [Bool.not_eq_true] at hc
          simp [hc] at h
        · exact (ih.mp hcs) x hx
      | cons r rs => simp [rustTrimRight, hcs] at h
    · intro h
      have hcs : rustTrimRight cs = [] := ih.mpr fun x hx => h x (by simp [hx])
      simp [rustTrimRight, hcs, h c (by simp)]

lemma trimRightConsOfNil {cs : Str} (c : Char) (h : rustTrimRight cs = []) :
    rustTrimRight (c :: cs) = if isRustWhitespace c = true then [] else [c] := by
  simp only [rustTrimRight, h]

lemma trimRightConsOfCons {cs rs : Str} {r : Char} (c : Char)
    (h : rustTrimRight cs = r :: rs) :
    rustTrimRight (c :: cs) = c :: r :: rs := by
  simp only [rustTrimRight, h]

lemma trimRightAppendWs {b : Str} (a : Str)
    (h : ∀ c ∈ b, isRustWhitespace c = true) :
    rustTrimRight (a ++ b) = rustTrimRight a := by
  induction a with
  | nil => simpa using (trimRightEqNilIff b).mpr h
  | cons c cs ih => simp [rustTrimRight, ih]

lemma trimRightAppendKeep {b : Str} (a : Str) (h : rustTrimRight b ≠ []) :
    rustTrimRight (a ++ b) = a ++ rustTrimRight b := by
  induction a with
  | nil => rfl
  | cons c cs ih =>
    have hab : rustTrimRight (cs ++ b) ≠ [] := by
      rw [ih]
      intro hcontra
      exact h (List.append_eq_nil.mp hcontra).2
    cases hcase : rustTrimRight (cs ++ b) with
    | nil => exact absurd hcase hab
    | cons r rs =>
      rw [List.cons_append, trimRightConsOfCons c hcase, ← hcase, ih,
        List.cons_append]

lemma trimRightConsNotWs {c : Char} (t : Str) (h : isRustWhitespace c = false) :
    rustTrimRight (c :: t) = c :: rustTrimRight t := by
  cases ht : rustTrimRight t with
  | nil => simp [rustTrimRight, ht, h]
  | cons r rs => simp [rustTrimRight, ht]

lemma trimRightConsNeNil {c : Char} (t : Str) (h : isRustWhitespace c = false) :
    rustTrimRight (c :: t) ≠ [] := by
  rw [trimRightConsNotWs t h]
  simp

lemma trimRightIdem (l : Str) : rustTrimRight (rustTrimRight l) = rustTrimRight l := by
  induction l with
  | nil => rfl
  | cons c cs ih =>
    cases hcs : rustTrimRight cs with
    | nil =>
      rw [trimRightConsOfNil c hcs]
      by_cases hc : isRustWhitespace c = true
      · simp [hc, rustTrimRight]
      · have hcf : isRustWhitespace c = false := by simpa using hc
        simp only [hcf, Bool.false_eq_true, if_false]
        rw [trimRightConsOfNil c (by rfl)]
        simp [hcf]
    | cons r rs =>
      rw [trimRightConsOfCons c hcs]
      have hr : rustTrimRight (r :: rs) = r :: rs := by
        rw [← hcs, ih, hcs]
      rw [trimRightConsOfCons c hr]

lemma memOfMemTrimRight {l : Str} {x : Char} (h : x ∈ rustTrimRight l) : x ∈ l := by
  induction l with
  | nil => simp [rustTrimRight] at h
  | cons c cs ih =>
    cases hcs : rustTrimRight cs with
    | nil =>
      rw [trimRightConsOfNil c hcs] at h
      by_cases hc : isRustWhitespace c = true
      · simp [hc] at h
      · have hcf : isRustWhitespace c = false := by simpa using hc
        simp only [hcf, Bool.false_eq_true, if_false] at h
        simp [List.mem_singleton.mp h]
    | cons r rs =>
      rw [trimRightConsOfCons c hcs] at h
      rcases List.mem_cons.mp h with rfl | hx
      · simp
      · rw [← hcs] at hx
        exact List.mem_cons_of_mem _ (ih hx)

lemma trimLeftTrimRightComm (l : Str) :
    rustTrimLeft (rustTrimRight l) = rustTrimRight (rustTrimLeft l) := by
  cases hdrop : l.dropWhile isRustWhitespace with
  | nil =>
    have hall : ∀ c ∈ l, isRustWhitespace c = true := by
      intro c hc
      by_contra hcontra
      simp only [Bool.not_eq_true] at hcontra
      have := List.dropWhile_eq_nil_iff.mp hdrop
      have := this c hc
      simp [hcontra] at this
    have h1 : rustTrimRight l = [] := (trimRightEqNilIff l).mpr hall
    simp [rustTrimLeft, rustTrim, h1, hdrop, rustTrimRight]
  | cons c t =>
    have hc : isRustWhitespace c = false := dropWhileHeadFalse hdrop
    have hdecomp : l = l.takeWhile isRustWhitespace ++ (c :: t) := by
      rw [← hdrop, List.takeWhile_append_dropWhile]
    have htake : ∀ x ∈ l.takeWhile isRustWhitespace, isRustWhitespace x = true :=
      fun x hx => List.mem_takeWhile_imp hx
    have hne : rustTrimRight (c :: t) ≠ [] := trimRightConsNeNil t hc
    calc rustTrimLeft (rustTrimRight l)
        = rustTrimLeft (rustTrimRight (l.takeWhile isRustWhitespace ++ (c :: t))) := by
          rw [← hdecomp]
      _ = rustTrimLeft (l.takeWhile isRustWhitespace ++ rustTrimRight (c :: t)) := by
          rw [trimRightAppendKeep _ hne]
      _ = rustTrimLeft (rustTrimRight (c :: t)) := by
          unfold rustTrimLeft
          exact dropWhileAppendAll _ htake
      _ = rustTrimRight (c :: t) := by
          rw [trimRightConsNotWs t hc]
          unfold rustTrimLeft
          simp [List.dropWhile_cons, hc]
      _ = rustTrimRight (rustTrimLeft l) := by
          unfold rustTrimLeft
          rw [hdrop]

lemma splitSepNeNil (sep : Char) (l : Str) : splitSep sep l ≠ [] := by
  cases l with
  | nil => simp [splitSep]
  | cons c cs =>
    simp only [splitSep]
    cases h : splitSep sep cs with
    | nil => simp
    | cons p ps =>
      by_cases hc : c = sep
      · simp [hc]
      · simp [hc]

lemma splitSepCons (sep c : Char) (cs : Str) :
    splitSep sep (c :: cs) =
      if c = sep then [] :: splitSep sep cs
      else (c :: (splitSep sep cs).headI) :: (splitSep sep cs).tail := by
  cases h : splitSep sep cs with
  | nil => exact absurd h (splitSepNeNil sep cs)
  | cons p ps => simp [splitSep, h]

lemma splitSepLength (sep : Char) (l : Str) :
    (splitSep sep l).length = l.count sep + 1 := by
  induction l with
  | nil => simp [splitSep]
  | cons c cs ih =>
    rw [splitSepCons]
    by_cases hc : c = sep
    · subst hc
      simp [ih]
    · rw [if_neg hc, List.count_cons_of_ne (fun hx => hc hx.symm)]
      have hne := splitSepNeNil sep cs
      simp only [List.length_cons]
      rw [List.length_tail]
      omega

lemma splitSepNoSep {sep : Char} {l : Str} (h : sep ∉ l) : splitSep sep l = [l] := by
  induction l with
  | nil => rfl
  | cons c cs ih =>
    have hcs : sep ∉ cs := fun hx => h (List.mem_cons_of_mem _ hx)
    have hc : c ≠ sep := fun hx => h (by simp [hx])
    simp [splitSep, ih hcs, hc]

lemma splitSepAppendCons {sep : Char} {u : Str} (d : Str) (hu : sep ∉ u) :
    splitSep sep (u ++ sep :: d) = u :: splitSep sep d := by
  induction u with
  | nil =>
    simp only [List.nil_append, splitSep]
    cases h : splitSep sep d with
    | nil => exact absurd h (splitSepNeNil sep d)
    | cons p ps => simp
  | cons c cs ih =>
    have hcs : sep ∉ cs := fun hx => hu (List.mem_cons_of_mem _ hx)
    have hc : c ≠ sep := fun hx => hu (by simp [hx])
    rw [List.cons_append, splitSepCons, if_neg hc, ih hcs]
    simp

lemma countEqOneDecomp {sep : Char} {l : Str} (h : l.count sep = 1) :
    ∃ a b, l = a ++ sep :: b ∧ sep ∉ a ∧ sep ∉ b := by
  induction l with
  | nil => simp at h
  | cons c cs ih =>
    by_cases hc : c = sep
    · subst hc
      have hcs : c ∉ cs := by
        rw [List.count_cons_self] at h
        have : cs.count c = 0 := by omega
        exact List.count_eq_zero.mp this
      exact ⟨[], cs, by simp, by simp, hcs⟩
    · rw [List.count_cons_of_ne (fun hx => hc hx.symm)] at h
      obtain ⟨a, b, hdecomp, ha, hb⟩ := ih h
      exact ⟨c :: a, b, by simp [hdecomp], by
        intro hx
        rcases List.mem_cons.mp hx with hx | hx
        · exact hc hx.symm
        · exact ha hx, hb⟩

lemma trimLeftOfTrimNeNil {u : Str} (h : rustTrim u ≠ []) : rustTrimLeft u ≠ [] := by
  intro hx
  apply h
  simp [rustTrim, hx, rustTrimRight]

lemma trimOfTrimRight (d : Str) : rustTrim (rustTrimRight d) = rustTrim d := by
  unfold rustTrim
  rw [trimLeftTrimRightComm d, trimRightIdem]

lemma memOfMemTrimLeft {l : Str} {x : Char} (h : x ∈ rustTrimLeft l) : x ∈ l :=
  memOfMemDropWhile h

lemma trimLeftIdem (l : Str) : rustTrimLeft (rustTrimLeft l) = rustTrimLeft l :=
  dropWhileIdem isRustWhitespace l

lemma trimOfTrimLeft (u : Str) : rustTrim (rustTrimLeft u) = rustTrim u := by
  unfold rustTrim
  rw [trimLeftIdem]

lemma trimIdem (l : Str) : rustTrim (rustTrim l) = rustTrim l := by
  unfold rustTrim
  rw [trimLeftTrimRightComm (rustTrimLeft l), trimLeftIdem, trimRightIdem]

lemma btcSignNotWs : isRustWhitespace '₿' = false := by decide

lemma atSignNotWs : isRustWhitespace '@' = false := by decide

lemma trimRightNeNilOfTrimNeNil {d : Str} (hdn : rustTrim d ≠ []) :
    rustTrimRight d ≠ [] := by
  intro hx
  apply hdn
  have hall : ∀ c ∈ d, isRustWhitespace c = true := (trimRightEqNilIff d).mp hx
  have hleft : rustTrimLeft d = [] := by
    unfold rustTrimLeft
    exact List.dropWhile_eq_nil_iff.mpr fun c hc => by simp [hall c hc]
  simp [rustTrim, hleft, rustTrimRight]

lemma trimRightMiddle (a d ws2 : Str)
    (hw2 : ∀ c ∈ ws2, isRustWhitespace c = true) (hdn : rustTrim d ≠ []) :
    rustTrimRight ((a ++ ['@']) ++ (d ++ ws2)) =
      a ++ '@' :: rustTrimRight d := by
  have hd' : rustTrimRight d ≠ [] := trimRightNeNilOfTrimNeNil hdn
  rw [show (a ++ ['@']) ++ (d ++ ws2) = ((a ++ ['@']) ++ d) ++ ws2 by
    simp [List.append_assoc]]
  rw [trimRightAppendWs _ hw2, trimRightAppendKeep _ hd']
  simp

lemma parseAddressDecomposition (ws1 ws2 p u d : Str)
    (hw1 : ∀ c ∈ ws1, isRustWhitespace c = true)
    (hw2 : ∀ c ∈ ws2, isRustWhitespace c = true)
    (hp : p = [] ∧ (rustTrimLeft u).head? ≠ some '₿' ∨ p = ['₿'])
    (hu : '@' ∉ u) (hd : '@' ∉ d)
    (hun : rustTrim u ≠ []) (hdn : rustTrim d ≠ []) :
    parse_address (ws1 ++ p ++ u ++ '@' :: (d ++ ws2)) =
      .ok (rustTrim u, rustTrim d) := by
  have hdTR : '@' ∉ rustTrimRight d := fun hx => hd (memOfMemTrimRight hx)
  rcases hp with ⟨hpnil, hb⟩ | hpbtc
  · subst hpnil
    have huL : rustTrimLeft u ≠ [] := trimLeftOfTrimNeNil hun
    have htrim : rustTrim (ws1 ++ [] ++ u ++ '@' :: (d ++ ws2)) =
        rustTrimLeft u ++ '@' :: rustTrimRight d := by
      unfold rustTrim
      rw [show ws1 ++ [] ++ u ++ '@' :: (d ++ ws2) =
        ws1 ++ (u ++ '@' :: (d ++ ws2)) by simp]
      unfold rustTrimLeft
      rw [dropWhileAppendAll _ hw1, dropWhileAppendKeep _ huL]
      rw [show u.dropWhile isRustWhitespace ++ '@' :: (d ++ ws2) =
        (u.dropWhile isRustWhitespace ++ ['@']) ++ (d ++ ws2) by simp]
      exact trimRightMiddle _ d ws2 hw2 hdn
    have hstrip : stripBtcSign (rustTrimLeft u ++ '@' :: rustTrimRight d) =
        rustTrimLeft u ++ '@' :: rustTrimRight d := by
      cases hcase : rustTrimLeft u with
      | nil => exact absurd hcase huL
      | cons c t =>
        have hcne : c ≠ '₿' := by
          rw [hcase] at hb
          simpa using hb
        simp [stripBtcSign, hcne]
    have hsplit : splitSep '@' (rustTrimLeft u ++ '@' :: rustTrimRight d) =
        [rustTrimLeft u, rustTrimRight d] := by
      rw [splitSepAppendCons _ (fun hx => hu (memOfMemTrimLeft hx)),
        splitSepNoSep hdTR]
    simp only [parse_address, htrim, hstrip, hsplit, trimOfTrimLeft,
      trimOfTrimRight]
    have h1 : (rustTrim u).isEmpty = false := by
      cases hh : rustTrim u with
      | nil => exact absurd hh hun
      | cons x xs => rfl
    have h2 : (rustTrim d).isEmpty = false := by
      cases hh : rustTrim d with
      | nil => exact absurd hh hdn
      | cons x xs => rfl
    simp [h1, h2]
  · subst hpbtc
    have htrim : rustTrim (ws1 ++ ['₿'] ++ u ++ '@' :: (d ++ ws2)) =
        '₿' :: (u ++ '@' :: rustTrimRight d) := by
      unfold rustTrim
      rw [show ws1 ++ ['₿'] ++ u ++ '@' :: (d ++ ws2) =
        ws1 ++ ('₿' :: (u ++ '@' :: (d ++ ws2))) by simp]
      unfold rustTrimLeft
      rw [dropWhileAppendAll _ hw1]
      rw [List.dropWhile_cons_of_neg (by simp [btcSignNotWs])]
      rw [show '₿' :: (u ++ '@' :: (d ++ ws2)) =
        (('₿' :: u) ++ ['@']) ++ (d ++ ws2) by simp]
      rw [trimRightMiddle _ d ws2 hw2 hdn]
      simp
    have hsplit : splitSep '@' (u ++ '@' :: rustTrimRight d) =
        [u, rustTrimRight d] := by
      rw [splitSepAppendCons _ hu, splitSepNoSep hdTR]
    simp only [parse_address, htrim]
    rw [show stripBtcSign ('₿' :: (u ++ '@' :: rustTrimRight d)) =
      u ++ '@' :: rustTrimRight d by simp [stripBtcSign]]
    rw [hsplit]
    simp [trimOfTrimRight, hun, hdn]

lemma splitSepPartsNoSep {sep : Char} {l : Str} :
    ∀ part ∈ splitSep sep l, sep ∉ part := by
  induction l with
  | nil =>
    intro part hp
    simp only [splitSep, List.mem_singleton] at hp
    simp [hp]
  | cons c cs ih =>
    intro part hp
    cases hsp : splitSep sep cs with
    | nil => exact absurd hsp (splitSepNeNil sep cs)
    | cons p ps =>
      rw [splitSepCons, hsp] at hp
      by_cases hc : c = sep
      · rw [if_pos hc] at hp
        rcases List.mem_cons.mp hp with rfl | hp
        · simp
        · exact ih part (hsp ▸ hp)
      · rw [if_neg hc] at hp
        rcases List.mem_cons.mp hp with rfl | hp
        · intro hx
          rcases List.mem_cons.mp hx with rfl | hx
          · exact hc rfl
          · exact ih p (hsp ▸ List.mem_cons_self p ps) (by simpa using hx)
        · exact ih part (hsp ▸ List.mem_cons_of_mem p hp)

lemma memOfMemTrim {l : Str} {x : Char} (h : x ∈ rustTrim l) : x ∈ l :=
  memOfMemTrimLeft (memOfMemTrimRight h)

lemma parseAddressOkShape {s u d : Str} (h : parse_address s = .ok (u, d)) :
    rustTrim u = u ∧ rustTrim d = d ∧ u ≠ [] ∧ d ≠ [] ∧ '@' ∉ u ∧ '@' ∉ d := by
  simp only [parse_address] at h
  split at h
  case _ part0 part1 heq =>
    split at h
    · exact absurd h (by simp)
    · rename_i hcond
      have hinj := Except.ok.inj h
      have hu : u = rustTrim part0 := (Prod.mk.injEq _ _ _ _ ▸ hinj).1.symm
      have hd : d = rustTrim part1 := (Prod.mk.injEq _ _ _ _ ▸ hinj).2.symm
      have hp0 : '@' ∉ part0 :=
        splitSepPartsNoSep part0 (heq ▸ List.mem_cons_self _ _)
      have hp1 : '@' ∉ part1 :=
        splitSepPartsNoSep part1 (heq ▸ List.mem_cons.mpr
          (Or.inr (List.mem_cons_self _ _)))
      have hne : ¬((rustTrim part0).isEmpty || (rustTrim part1).isEmpty) = true := hcond
      simp only [Bool.or_eq_true, not_or, List.isEmpty_eq_true] at hne
      subst hu
      subst hd
      exact ⟨trimIdem part0, trimIdem part1, hne.1, hne.2,
        fun hx => hp0 (memOfMemTrim hx), fun hx => hp1 (memOfMemTrim hx)⟩
  case _ => exact absurd h (by simp)

lemma headTrimLeftEqHead {u : Str} (hself : rustTrim u = u) (hne : u ≠ []) :
    (rustTrimLeft u).head? = u.head? := by
  cases hcase : rustTrimLeft u with
  | nil =>
    exfalso
    apply hne
    rw [← hself]
    simp [rustTrim, hcase, rustTrimRight]
  | cons c t =>
    have hc : isRustWhitespace c = false := dropWhileHeadFalse hcase
    have : rustTrim u = c :: rustTrimRight t := by
      rw [rustTrim, hcase, trimRightConsNotWs t hc]
    rw [hself] at this
    rw [this]
    simp

/-- Claim C5, counterexample: parse_address is not idempotent on its own
normalized output.  Parsing "₿₿alice@example.com" strips one currency sign
and yields user "₿alice"; re-parsing the normalized "₿alice@example.com"
strips the sign again and yields the different pair ("alice",
"example.com"). -/
theorem parse_address_reparse_counterexample :
    parse_address "₿₿alice@example.com".data =
      .ok ("₿alice".data, "example.com".data) ∧
    parse_address ("₿alice".data ++ '@' :: "example.com".data) =
      .ok ("alice".data, "example.com".data) ∧
    ("₿alice".data : Str) ≠ "alice".data :=
  ⟨by rfl, by rfl, by decide⟩

/-- Claim C5, amended: for every address string of the form optional
currency-sign prefix + user + '@' + domain with arbitrary surrounding
whitespace, where the user part does not itself begin with the currency
sign when no prefix is present, parse_address returns the trimmed,
prefix-stripped (user, domain); and re-applying parse_address to the
normalized "user@domain" built from a successful parse returns the same
pair provided the parsed user does not begin with the currency sign. -/
theorem parse_address_normalization_and_reparse :
    (∀ ws1 ws2 p u d : Str,
      (∀ c ∈ ws1, isRustWhitespace c = true) →
      (∀ c ∈ ws2, isRustWhitespace c = true) →
      (p = [] ∧ (rustTrimLeft u).head? ≠ some '₿' ∨ p = ['₿']) →
      '@' ∉ u → '@' ∉ d → rustTrim u ≠ [] → rustTrim d ≠ [] →
      parse_address (ws1 ++ p ++ u ++ '@' :: (d ++ ws2)) =
        .ok (rustTrim u, rustTrim d)) ∧
    (∀ s u d : Str, parse_address s = .ok (u, d) → u.head? ≠ some '₿' →
      parse_address (u ++ '@' :: d) = .ok (u, d)) := by
  constructor
  · exact parseAddressDecomposition
  · intro s u d h hbtc
    obtain ⟨hu, hd, hune, hdne, huat, hdat⟩ := parseAddressOkShape h
    have hdecomp := parseAddressDecomposition [] [] [] u d (by simp) (by simp)
      (Or.inl ⟨rfl, by rw [headTrimLeftEqHead hu hune]; exact hbtc⟩)
      huat hdat (by rw [hu]; exact hune) (by rw [hd]; exact hdne)
    simpa [hu, hd] using hdecomp

/-- Witness for the amended C5 theorem at concrete inputs. -/
theorem parse_address_normalization_and_reparse_witness :
    parse_address ("  ".data ++ "₿".data ++ "alice".data ++
        '@' :: ("example.com".data ++ " ".data)) =
      .ok (rustTrim "alice".data, rustTrim "example.com".data) ∧
    parse_address ("alice".data ++ '@' :: "example.com".data) =
      .ok ("alice".data, "example.com".data) :=
  ⟨parse_address_normalization_and_reparse.1 "  ".data " ".data "₿".data
      "alice".data "example.com".data (by decide) (by decide)
      (Or.inr (by decide)) (by decide) (by decide) (by decide) (by decide),
   parse_address_normalization_and_reparse.2 "alice@example.com".data
      "alice".data "example.com".data (by rfl) (by decide)⟩

lemma parseAddressOkOfSplit {s a b : Str}
    (hsplit : splitSep '@' (stripBtcSign (rustTrim s)) = [a, b])
    (ha : rustTrim a ≠ []) (hb : rustTrim b ≠ []) :
    parse_address s = .ok (rustTrim a, rustTrim b) := by
  simp only [parse_address]
  rw [hsplit]
  simp [ha, hb]

lemma parseAddressErrOfSplit {s a b : Str}
    (hsplit : splitSep '@' (stripBtcSign (rustTrim s)) = [a, b])
    (hab : rustTrim a = [] ∨ rustTrim b = []) :
    parse_address s =
      .error (.InvalidAddress "User and domain cannot be empty".data) := by
  simp only [parse_address]
  rw [hsplit]
  rcases hab with h | h <;> simp [h]

/-- Claim C9: parse_address fails, with the InvalidAddress variant, exactly
when the input after trimming and stripping one currency-sign prefix does
not contain exactly one '@' or when either resulting part is empty after
trimming; every failure is an InvalidAddress; and the six listed example
inputs all fail with InvalidAddress. -/
theorem parse_address_failure_characterization :
    (∀ s : Str,
      (∃ m, parse_address s = .error (.InvalidAddress m)) ↔
        ((stripBtcSign (rustTrim s)).count '@' ≠ 1 ∨
         ∃ a b : Str, stripBtcSign (rustTrim s) = a ++ '@' :: b ∧
           (rustTrim a = [] ∨ rustTrim b = []))) ∧
    (∀ (s : Str) (e : Bip353Error), parse_address s = .error e →
      ∃ m, e = .InvalidAddress m) ∧
    (∃ m, parse_address "aliceexample.com".data = .error (.InvalidAddress m)) ∧
    (∃ m, parse_address "@example.com".data = .error (.InvalidAddress m)) ∧
    (∃ m, parse_address "alice@".data = .error (.InvalidAddress m)) ∧
    (∃ m, parse_address "alice@example@com".data = .error (.InvalidAddress m)) ∧
    (∃ m, parse_address "".data = .error (.InvalidAddress m)) ∧
    (∃ m, parse_address "   ".data = .error (.InvalidAddress m)) := by
  refine ⟨?_, ?_, ⟨_, by rfl⟩, ⟨_, by rfl⟩, ⟨_, by rfl⟩, ⟨_, by rfl⟩,
    ⟨_, by rfl⟩, ⟨_, by rfl⟩⟩
  · intro s
    by_cases hcount : (stripBtcSign (rustTrim s)).count '@' = 1
    · obtain ⟨a, b, hr, ha, hb⟩ := countEqOneDecomp hcount
      have hsplit : splitSep '@' (stripBtcSign (rustTrim s)) = [a, b] := by
        rw [hr, splitSepAppendCons _ ha, splitSepNoSep hb]
      constructor
      · rintro ⟨m, hm⟩
        right
        refine ⟨a, b, hr, ?_⟩
        by_contra hcon
        push_neg at hcon
        rw [parseAddressOkOfSplit hsplit hcon.1 hcon.2] at hm
        cases hm
      · intro hcond
        rcases hcond with hcnt | ⟨a', b', hr', hempty⟩
        · exact absurd hcount hcnt
        · have hcnt' := hcount
          rw [hr'] at hcnt'
          rw [List.count_append, List.count_cons_self] at hcnt'
          have ha' : '@' ∉ a' := List.count_eq_zero.mp (by omega)
          have hb' : '@' ∉ b' := List.count_eq_zero.mp (by omega)
          have hsplit' : splitSep '@' (stripBtcSign (rustTrim s)) = [a', b'] := by
            rw [hr', splitSepAppendCons _ ha', splitSepNoSep hb']
          exact ⟨_, parseAddressErrOfSplit hsplit' hempty⟩
    · constructor
      · intro _
        exact Or.inl hcount
      · intro _
        have hlen : (splitSep '@' (stripBtcSign (rustTrim s))).length ≠ 2 := by
          rw [splitSepLength]
          omega
        refine ⟨"Address must be in format user@domain".data, ?_⟩
        simp only [parse_address]
        rcases hsp : splitSep '@' (stripBtcSign (rustTrim s)) with
          _ | ⟨x, _ | ⟨y, _ | ⟨z, rest⟩⟩⟩
        · exact absurd hsp (splitSepNeNil _ _)
        · rfl
        · exact absurd (by rw [hsp]; rfl) hlen
        · rfl
  · intro s e h
    simp only [parse_address] at h
    split at h
    · split at h
      · exact ⟨_, (Except.error.inj h).symm⟩
      · exact absurd h (by simp)
    · exact ⟨_, (Except.error.inj h).symm⟩

/-- Witness for the C9 theorem: its error-shape conjunct applied at the
empty input. -/
theorem parse_address_failure_characterization_witness :
    ∃ m, Bip353Error.InvalidAddress
        "Address must be in format user@domain".data = .InvalidAddress m :=
  parse_address_failure_characterization.2.1 "".data
    (.InvalidAddress "Address must be in format user@domain".data) (by rfl)

lemma entriesLookupInsertSelf (key : Str) (entry : CacheEntry)
    (l : List (Str × CacheEntry)) :
    entriesLookup key (entriesInsert key entry l) = some entry := by
  induction l with
  | nil => simp [entriesInsert, entriesLookup]
  | cons kv rest ih =>
    obtain ⟨k, e⟩ := kv
    by_cases hk : k = key
    · simp [entriesInsert, entriesLookup, hk]
    · simp [entriesInsert, entriesLookup, hk, ih]

lemma entriesLookupRemoveSelf (key : Str) (l : List (Str × CacheEntry)) :
    entriesLookup key (entriesRemove key l) = none := by
  induction l with
  | nil => simp [entriesRemove, entriesLookup]
  | cons kv rest ih =>
    obtain ⟨k, e⟩ := kv
    by_cases hk : k = key
    · subst hk
      simp [entriesRemove, ih]
    · simp [entriesRemove, entriesLookup, hk, ih]

/-- A concrete payment info value used to instantiate witness theorems. -/
def samplePaymentInfo : PaymentInfo :=
  { uri := "bitcoin:1Addr".data
    payment_type := .OnChain
    is_reusable := true
    parameters := []
    original_instructions := .FixedAmount { methods := [], max_amount := none } }

/-- Claim C6: the TTL cache laws.  A `get` at clock `now2` after an insert
at clock `now1` returns the inserted value while the elapsed time stays
below the default TTL and returns none once the TTL has elapsed — without
removing the entry, which is still stored with its insertion stamp
(`AddressCache.get` reads under a shared lock and is embedded as a pure
observation, so reads never modify the map); a `get` after `invalidate`
returns none; after `clear_cache` every key reads none; and `insert`
unconditionally overwrites any previous entry with the new value, the
current timestamp and the cache's default TTL. -/
theorem address_cache_ttl_laws (c : AddressCache) (k : Str) (v : PaymentInfo)
    (now1 now2 : Nat) :
    (now1 ≤ now2 → now2 - now1 < c.default_ttl →
      (c.insert now1 k v).get now2 k = some v) ∧
    (now1 ≤ now2 → c.default_ttl ≤ now2 - now1 →
      (c.insert now1 k v).get now2 k = none) ∧
    entriesLookup k (c.insert now1 k v).entries =
      some { payment_info := v, cached_at := now1, ttl := c.default_ttl } ∧
    (∀ now, (c.invalidate k).get now k = none) ∧
    (∀ now k2, (AddressCache.clearAll c).get now k2 = none) := by
  have hlook : entriesLookup k (c.insert now1 k v).entries =
      some { payment_info := v, cached_at := now1, ttl := c.default_ttl } :=
    entriesLookupInsertSelf k _ c.entries
  refine ⟨?_, ?_, hlook, ?_, ?_⟩
  · intro h1 h2
    simp [AddressCache.get, hlook, entryElapsed, h1, h2]
  · intro h1 h2
    simp [AddressCache.get, hlook, entryElapsed, h1, Nat.not_lt.mpr h2]
  · intro now
    simp [AddressCache.get, AddressCache.invalidate, entriesLookupRemoveSelf]
  · intro now k2
    simp [AddressCache.get, AddressCache.clearAll, entriesLookup]

/-- Witness for the C6 theorem at concrete inputs. -/
theorem address_cache_ttl_laws_witness :
    ((AddressCache.new 5).insert 0 "alice@example.com".data
        samplePaymentInfo).get 1 "alice@example.com".data =
      some samplePaymentInfo ∧
    ((AddressCache.new 5).insert 0 "alice@example.com".data
        samplePaymentInfo).get 7 "alice@example.com".data = none := by
  have h := address_cache_ttl_laws (AddressCache.new 5)
    "alice@example.com".data samplePaymentInfo 0 1
  have h' := address_cache_ttl_laws (AddressCache.new 5)
    "alice@example.com".data samplePaymentInfo 0 7
  exact ⟨h.1 (by decide) (by decide), h'.2.1 (by decide) (by decide)⟩

/-- Claim C10: a cache entry whose `cached_at` timestamp lies in the future
of the current clock is treated as expired: `SystemTime::elapsed` fails,
the age defaults to `Duration::MAX`, the strict comparison against the TTL
(at most `Duration::MAX` for any representable TTL) fails, and `get`
returns none instead of the stale value. -/
theorem address_cache_future_timestamp_expired (c : AddressCache) (now : Nat)
    (hrn : Str) (entry : CacheEntry)
    (hlook : entriesLookup hrn c.entries = some entry)
    (hfuture : now < entry.cached_at)
    (httl : entry.ttl ≤ durationMaxNanos) :
    c.get now hrn = none := by
  have helapsed : entryElapsed entry.cached_at now = durationMaxNanos := by
    simp [entryElapsed, Nat.not_le.mpr hfuture]
  simp [AddressCache.get, hlook, helapsed, Nat.not_lt.mpr httl]

/-- Witness for the C10 theorem: an entry stamped at clock 10 read at
clock 0. -/
theorem address_cache_future_timestamp_expired_witness :
    AddressCache.get
      { entries := [("k".data,
          { payment_info := samplePaymentInfo, cached_at := 10, ttl := 5 })]
        default_ttl := 5 } 0 "k".data = none :=
  address_cache_future_timestamp_expired _ 0 "k".data
    { payment_info := samplePaymentInfo, cached_at := 10, ttl := 5 }
    (by rfl) (by decide) (by decide)

/-- One call on a shared `Bip353Metrics` value, for quantifying over call
sequences. -/
inductive MetricsOp where
  | success
  | failure
  | cacheHit
  | cacheMiss
  | addressReuse
deriving DecidableEq

/-- Apply one recorded call. -/
def applyMetricsOp (m : Bip353Metrics) : MetricsOp → Bip353Metrics
  | .success => m.record_resolution_success
  | .failure => m.record_resolution_failure
  | .cacheHit => m.record_cache_hit
  | .cacheMiss => m.record_cache_miss
  | .addressReuse => m.record_address_reuse

/-- Apply a sequence of recorded calls, oldest first. -/
def applyMetricsOps (m : Bip353Metrics) (ops : List MetricsOp) : Bip353Metrics :=
  ops.foldl applyMetricsOp m

lemma fetchAddOneMod (a : Nat) : fetchAddOne (a % u64Mod) = (a + 1) % u64Mod := by
  unfold fetchAddOne
  rw [Nat.mod_add_mod]

lemma applyMetricsOpsCounters (ops : List MetricsOp) :
    (applyMetricsOps Bip353Metrics.new ops).resolutions_total =
      (ops.count MetricsOp.success + ops.count MetricsOp.failure) % u64Mod ∧
    (applyMetricsOps Bip353Metrics.new ops).resolutions_success =
      ops.count MetricsOp.success % u64Mod ∧
    (applyMetricsOps Bip353Metrics.new ops).resolutions_failed =
      ops.count MetricsOp.failure % u64Mod := by
  induction ops using List.reverseRecOn with
  | nil => simp [applyMetricsOps, Bip353Metrics.new]
  | append_singleton ops op ih =>
    obtain ⟨iht, ihs, ihf⟩ := ih
    have happ : applyMetricsOps Bip353Metrics.new (ops ++ [op]) =
        applyMetricsOp (applyMetricsOps Bip353Metrics.new ops) op := by
      simp [applyMetricsOps, List.foldl_append]
    cases op with
    | success =>
      have hcs : (ops ++ [MetricsOp.success]).count MetricsOp.success =
          ops.count MetricsOp.success + 1 := by
        simp [List.count_append]
      have hcf : (ops ++ [MetricsOp.success]).count MetricsOp.failure =
          ops.count MetricsOp.failure := by
        simp [List.count_append]
      refine ⟨?_, ?_, ?_⟩
      · rw [happ, hcs, hcf]
        show fetchAddOne (applyMetricsOps Bip353Metrics.new ops).resolutions_total = _
        rw [iht, fetchAddOneMod, Nat.add_right_comm]
      · rw [happ, hcs]
        show fetchAddOne (applyMetricsOps Bip353Metrics.new ops).resolutions_success = _
        rw [ihs, fetchAddOneMod]
      · rw [happ, hcf]
        show (applyMetricsOps Bip353Metrics.new ops).resolutions_failed = _
        exact ihf
    | failure =>
      have hcs : (ops ++ [MetricsOp.failure]).count MetricsOp.success =
          ops.count MetricsOp.success := by
        simp [List.count_append]
      have hcf : (ops ++ [MetricsOp.failure]).count MetricsOp.failure =
          ops.count MetricsOp.failure + 1 := by
        simp [List.count_append]
      refine ⟨?_, ?_, ?_⟩
      · rw [happ, hcs, hcf]
        show fetchAddOne (applyMetricsOps Bip353Metrics.new ops).resolutions_total = _
        rw [iht, fetchAddOneMod, Nat.add_assoc]
      · rw [happ, hcs]
        show (applyMetricsOps Bip353Metrics.new ops).resolutions_success = _
        exact ihs
      · rw [happ, hcf]
        show fetchAddOne (applyMetricsOps Bip353Metrics.new ops).resolutions_failed = _
        rw [ihf, fetchAddOneMod]
    | cacheHit =>
      have hcs : (ops ++ [MetricsOp.cacheHit]).count MetricsOp.success =
          ops.count MetricsOp.success := by
        simp [List.count_append]
      have hcf : (ops ++ [MetricsOp.cacheHit]).count MetricsOp.failure =
          ops.count MetricsOp.failure := by
        simp [List.count_append]
      exact ⟨by rw [happ, hcs, hcf]; exact iht, by rw [happ, hcs]; exact ihs,
        by rw [happ, hcf]; exact ihf⟩
    | cacheMiss =>
      have hcs : (ops ++ [MetricsOp.cacheMiss]).count MetricsOp.success =
          ops.count MetricsOp.success := by
        simp [List.count_append]
      have hcf : (ops ++ [MetricsOp.cacheMiss]).count MetricsOp.failure =
          ops.count MetricsOp.failure := by
        simp [List.count_append]
      exact ⟨by rw [happ, hcs, hcf]; exact iht, by rw [happ, hcs]; exact ihs,
        by rw [happ, hcf]; exact ihf⟩
    | addressReuse =>
      have hcs : (ops ++ [MetricsOp.addressReuse]).count MetricsOp.success =
          ops.count MetricsOp.success := by
        simp [List.count_append]
      have hcf : (ops ++ [MetricsOp.addressReuse]).count MetricsOp.failure =
          ops.count MetricsOp.failure := by
        simp [List.count_append]
      exact ⟨by rw [happ, hcs, hcf]; exact iht, by rw [happ, hcs]; exact ihs,
        by rw [happ, hcf]; exact ihf⟩

/-- Claim C7: for every sequence of recorded calls starting from a fresh
`Bip353Metrics` value, the resolution snapshot satisfies
`total = success + failed` (as u64 values, i.e. modulo 2^64, which is exact
whenever fewer than 2^64 resolutions were recorded) and `success_rate = 0`
when `total = 0`; and for every metrics state the cache snapshot satisfies
`total = hits + misses` (u64 addition at snapshot time) and `hit_rate = 0`
when that total is 0. -/
theorem metrics_snapshot_invariants (ops : List MetricsOp) :
    ((applyMetricsOps Bip353Metrics.new ops).get_resolution_stats.total =
      ((applyMetricsOps Bip353Metrics.new ops).get_resolution_stats.success +
        (applyMetricsOps Bip353Metrics.new ops).get_resolution_stats.failed) %
        u64Mod) ∧
    (ops.count MetricsOp.success + ops.count MetricsOp.failure < u64Mod →
      (applyMetricsOps Bip353Metrics.new ops).get_resolution_stats.total =
        (applyMetricsOps Bip353Metrics.new ops).get_resolution_stats.success +
          (applyMetricsOps Bip353Metrics.new ops).get_resolution_stats.failed) ∧
    ((applyMetricsOps Bip353Metrics.new ops).get_resolution_stats.total = 0 →
      (applyMetricsOps Bip353Metrics.new ops).get_resolution_stats.success_rate
        = 0) ∧
    (∀ m : Bip353Metrics,
      m.get_cache_stats.total = (m.get_cache_stats.hits +
        m.get_cache_stats.misses) % u64Mod ∧
      (m.get_cache_stats.total = 0 → m.get_cache_stats.hit_rate = 0)) := by
  obtain ⟨iht, ihs, ihf⟩ := applyMetricsOpsCounters ops
  refine ⟨?_, ?_, ?_, ?_⟩
  · simp only [Bip353Metrics.get_resolution_stats, iht, ihs, ihf]
    rw [Nat.add_mod]
  · intro hlt
    simp only [Bip353Metrics.get_resolution_stats, iht, ihs, ihf]
    have h1 : ops.count MetricsOp.success < u64Mod := by omega
    have h2 : ops.count MetricsOp.failure < u64Mod := by omega
    rw [Nat.mod_eq_of_lt hlt, Nat.mod_eq_of_lt h1, Nat.mod_eq_of_lt h2]
  · intro h0
    simp only [Bip353Metrics.get_resolution_stats] at h0 ⊢
    simp [h0]
  · intro m
    refine ⟨rfl, ?_⟩
    intro h0
    simp only [Bip353Metrics.get_cache_stats] at h0 ⊢
    simp [h0]

/-- Witness for the C7 theorem at a concrete call sequence. -/
theorem metrics_snapshot_invariants_witness :
    (applyMetricsOps Bip353Metrics.new
        [MetricsOp.success, MetricsOp.failure,
         MetricsOp.success]).get_resolution_stats.total =
      (applyMetricsOps Bip353Metrics.new
        [MetricsOp.success, MetricsOp.failure,
         MetricsOp.success]).get_resolution_stats.success +
        (applyMetricsOps Bip353Metrics.new
          [MetricsOp.success, MetricsOp.failure,
           MetricsOp.success]).get_resolution_stats.failed :=
  (metrics_snapshot_invariants
    [MetricsOp.success, MetricsOp.failure, MetricsOp.success]).2.1
    (by decide)

/-- Modelled from the claim: the payment type a fixed-amount method sets
for itself when visited by the classification loop. -/
def specFixedMethodType : PaymentMethod → PaymentType
  | .OnChain _ => .OnChain
  | .LightningBolt11 _ => .Lightning
  | .LightningBolt12 _ => .LightningOffer

/-- Modelled from the claim: the payment type a configurable-amount method
sets for itself when visited by the classification loop. -/
def specConfigurableMethodType : PossiblyResolvedPaymentMethod → PaymentType
  | .LNURLPay _ => .Lightning
  | .Resolved m => specFixedMethodType m

/-- Modelled from the claim: whether a fixed-amount method is a single-use
Lightning invoice (BOLT11). -/
def specFixedSingleUse : PaymentMethod → Bool
  | .LightningBolt11 _ => true
  | _ => false

/-- Modelled from the claim: whether a configurable-amount method is a
single-use Lightning-invoice method (BOLT11 invoice or LNURL-pay
placeholder). -/
def specConfigurableSingleUse : PossiblyResolvedPaymentMethod → Bool
  | .LNURLPay _ => true
  | .Resolved m => specFixedSingleUse m

/-- Modelled from the claim: the type of the last method visited in
iteration order, `Unknown` when no method is present. -/
def specLastVisitedType : PaymentInstructions → PaymentType
  | .FixedAmount fixed =>
    (fixed.methods.getLast?).elim PaymentType.Unknown specFixedMethodType
  | .ConfigurableAmount configurable =>
    (configurable.methods.getLast?).elim PaymentType.Unknown
      specConfigurableMethodType

/-- Modelled from the claim: whether any single-use Lightning-invoice
method is present among the returned methods. -/
def specHasSingleUse : PaymentInstructions → Bool
  | .FixedAmount fixed => fixed.methods.any specFixedSingleUse
  | .ConfigurableAmount configurable =>
    configurable.methods.any specConfigurableSingleUse

lemma classifyFixedFoldFst (ms : List PaymentMethod) (pt : PaymentType)
    (ru : Bool) :
    (ms.foldl classifyFixedStep (pt, ru)).1 =
      (ms.getLast?).elim pt specFixedMethodType := by
  induction ms generalizing pt ru with
  | nil => rfl
  | cons m rest ih =>
    cases rest with
    | nil => cases m <;> rfl
    | cons m2 rest2 =>
      rw [List.foldl_cons, ih, List.getLast?_cons_cons]
      rfl

lemma classifyFixedFoldSnd (ms : List PaymentMethod) (pt : PaymentType)
    (ru : Bool) :
    (ms.foldl classifyFixedStep (pt, ru)).2 =
      (ru && !(ms.any specFixedSingleUse)) := by
  induction ms generalizing pt ru with
  | nil => simp
  | cons m rest ih =>
    rw [List.foldl_cons, ih]
    cases m <;> simp [classifyFixedStep, specFixedSingleUse, Bool.and_assoc]

lemma classifyConfigurableFoldFst (ms : List PossiblyResolvedPaymentMethod)
    (pt : PaymentType) (ru : Bool) :
    (ms.foldl classifyConfigurableStep (pt, ru)).1 =
      (ms.getLast?).elim pt specConfigurableMethodType := by
  induction ms generalizing pt ru with
  | nil => rfl
  | cons m rest ih =>
    cases rest with
    | nil =>
      cases m with
      | LNURLPay cb => rfl
      | Resolved m2 => cases m2 <;> rfl
    | cons m2 rest2 =>
      rw [List.foldl_cons, ih, List.getLast?_cons_cons]
      rfl

lemma classifyConfigurableFoldSnd (ms : List PossiblyResolvedPaymentMethod)
    (pt : PaymentType) (ru : Bool) :
    (ms.foldl classifyConfigurableStep (pt, ru)).2 =
      (ru && !(ms.any specConfigurableSingleUse)) := by
  induction ms generalizing pt ru with
  | nil => simp
  | cons m rest ih =>
    rw [List.foldl_cons, ih]
    cases m with
    | LNURLPay cb => simp [classifyConfigurableStep, specConfigurableSingleUse]
    | Resolved m2 =>
      cases m2 <;>
        simp [classifyConfigurableStep, specConfigurableSingleUse,
          specFixedSingleUse, Bool.and_assoc]

/-- Claim C3: the classification in `PaymentInfo::from_instructions` is a
single left-to-right pass in which each visited method overwrites
`payment_type` with its own type — so the last method in iteration order
determines the final `payment_type` (`Unknown` when no method is present)
— and `is_reusable` is false exactly when at least one single-use
Lightning-invoice method (a BOLT11 invoice, or an LNURL-pay placeholder in
the configurable case) is present, and true otherwise. -/
theorem from_instructions_classification (instructions : PaymentInstructions)
    (uri : Str) :
    (PaymentInfo.from_instructions instructions uri).payment_type =
      specLastVisitedType instructions ∧
    (PaymentInfo.from_instructions instructions uri).is_reusable =
      !(specHasSingleUse instructions) := by
  cases instructions with
  | FixedAmount fixed =>
    constructor
    · show (classifyInstructions (.FixedAmount fixed)).1 = _
      simp only [classifyInstructions, specLastVisitedType]
      exact classifyFixedFoldFst fixed.methods .Unknown true
    · show (classifyInstructions (.FixedAmount fixed)).2 = _
      simp only [classifyInstructions, specHasSingleUse]
      rw [classifyFixedFoldSnd fixed.methods .Unknown true]
      simp
  | ConfigurableAmount configurable =>
    constructor
    · show (classifyInstructions (.ConfigurableAmount configurable)).1 = _
      simp only [classifyInstructions, specLastVisitedType]
      exact classifyConfigurableFoldFst configurable.methods .Unknown true
    · show (classifyInstructions (.ConfigurableAmount configurable)).2 = _
      simp only [classifyInstructions, specHasSingleUse]
      rw [classifyConfigurableFoldSnd configurable.methods .Unknown true]
      simp

/-- Claim C8, counterexample: `bip353_resolver_create_with_network` also
accepts the name "main", which is not one of "mainnet", "testnet",
"signet", "regtest", so acceptance is not limited to those four names. -/
theorem create_with_network_counterexample :
    (bip353_resolver_create_with_network (.valid "main".data)).isSome = true ∧
    ("main".data : Str) ≠ "mainnet".data ∧
    ("main".data : Str) ≠ "testnet".data ∧
    ("main".data : Str) ≠ "signet".data ∧
    ("main".data : Str) ≠ "regtest".data := by
  refine ⟨by rfl, by decide, by decide, by decide, by decide⟩

/-- Claim C8, amended: `bip353_resolver_create_with_network` returns a
non-null handle exactly when the input is valid text equal to one of
"main", "mainnet", "bitcoin", "test", "testnet", "signet", "regtest"; for
every other name, and for a null pointer or invalidly encoded input, it
returns null. -/
theorem create_with_network_accepted_names (input : CStrInput) :
    (bip353_resolver_create_with_network input).isSome = true ↔
      ∃ s : Str, input = .valid s ∧
        (s = "main".data ∨ s = "mainnet".data ∨ s = "bitcoin".data ∨
         s = "test".data ∨ s = "testnet".data ∨ s = "signet".data ∨
         s = "regtest".data) := by
  cases input with
  | nullPtr =>
    simp [bip353_resolver_create_with_network]
  | invalidUtf8 =>
    simp [bip353_resolver_create_with_network]
  | valid s =>
    by_cases h1 : s = "main".data ∨ s = "mainnet".data ∨ s = "bitcoin".data
    · simp [bip353_resolver_create_with_network, h1]
      tauto
    · by_cases h2 : s = "test".data ∨ s = "testnet".data
      · simp [bip353_resolver_create_with_network, h1, h2]
        tauto
      · by_cases h3 : s = "signet".data
        · simp [bip353_resolver_create_with_network, h1, h2, h3]
        · by_cases h4 : s = "regtest".data
          · simp [bip353_resolver_create_with_network, h1, h2, h3, h4]
          · simp [bip353_resolver_create_with_network, h1, h2, h3, h4]

lemma splitAtFirstNone {sep : Char} {l : Str} (h : sep ∉ l) :
    splitAtFirst sep l = none := by
  induction l with
  | nil => rfl
  | cons c cs ih =>
    have hc : c ≠ sep := fun hx => h (by simp [hx])
    have hcs : sep ∉ cs := fun hx => h (List.mem_cons_of_mem _ hx)
    simp [splitAtFirst, hc, ih hcs]

/-- Claim C4: with a backend returning a `FixedAmount` instruction holding
exactly one on-chain address (free of the query separator, as every
rendered Bitcoin address is) and no maximum amount, `resolve` yields
`uri = "bitcoin:" ++ addr`, `payment_type = OnChain`, `is_reusable = true`
and an empty parameter map; with a backend returning exactly one BOLT11
invoice, `resolve` yields `uri = "bitcoin:?lightning=" ++ invoice`,
`payment_type = Lightning` and `is_reusable = false`. -/
theorem resolve_end_to_end_stub (dnsB1 dnsB2 httpB : Backend)
    (config : ResolverConfig) (u d addr invoice : Str) (amt : Option Amount)
    (hb1 : dnsB1 (u ++ '@' :: d) config.network true =
      .ok (.FixedAmount { methods := [.OnChain addr], max_amount := none }))
    (haddr : '?' ∉ addr)
    (hb2 : dnsB2 (u ++ '@' :: d) config.network true =
      .ok (.FixedAmount { methods := [.LightningBolt11 invoice],
                          max_amount := amt })) :
    Bip353Resolver.resolve dnsB1 httpB
        { resolver_type := .DNS, config := config } u d =
      .ok { uri := "bitcoin:".data ++ addr
            payment_type := .OnChain
            is_reusable := true
            parameters := []
            original_instructions :=
              .FixedAmount { methods := [.OnChain addr], max_amount := none } } ∧
    (∃ info : PaymentInfo,
      Bip353Resolver.resolve dnsB2 httpB
          { resolver_type := .DNS, config := config } u d = .ok info ∧
      info.uri = "bitcoin:?lightning=".data ++ invoice ∧
      info.payment_type = .Lightning ∧
      info.is_reusable = false) := by
  constructor
  · have hnoq : '?' ∉ ("bitcoin:".data ++ addr) := by
      intro hx
      rcases List.mem_append.mp hx with hx | hx
      · simp at hx
      · exact haddr hx
    have hparams : parametersOfUri ("bitcoin:".data ++ addr) = [] := by
      unfold parametersOfUri
      rw [splitAtFirstNone hnoq]
    simp only [Bip353Resolver.resolve, hb1, uriFromInstructions,
      List.head?_cons]
    simp only [PaymentInfo.from_instructions, classifyInstructions,
      hparams, originalOfInstructions]
    rfl
  · refine ⟨PaymentInfo.from_instructions
      (.FixedAmount { methods := [.LightningBolt11 invoice],
                      max_amount := amt })
      ("bitcoin:?lightning=".data ++ invoice), ?_, ?_, ?_, ?_⟩
    · simp only [Bip353Resolver.resolve, hb2, uriFromInstructions,
        List.head?_cons]
    · rfl
    · rfl
    · rfl

/-- Witness for the C4 theorem with concrete stub backends. -/
theorem resolve_end_to_end_stub_witness :
    Bip353Resolver.resolve
        (fun _ _ _ => .ok (.FixedAmount
          { methods := [.OnChain "1Addr".data], max_amount := none }))
        (fun _ _ _ => .error .WrongNetwork)
        { resolver_type := .DNS, config := ResolverConfig.defaultConfig }
        "alice".data "example.com".data =
      .ok { uri := "bitcoin:".data ++ "1Addr".data
            payment_type := .OnChain
            is_reusable := true
            parameters := []
            original_instructions := .FixedAmount
              { methods := [.OnChain "1Addr".data], max_amount := none } } ∧
    (∃ info : PaymentInfo,
      Bip353Resolver.resolve
          (fun _ _ _ => .ok (.FixedAmount
            { methods := [.LightningBolt11 "lnbc1".data],
              max_amount := none }))
          (fun _ _ _ => .error .WrongNetwork)
          { resolver_type := .DNS, config := ResolverConfig.defaultConfig }
          "alice".data "example.com".data = .ok info ∧
      info.uri = "bitcoin:?lightning=".data ++ "lnbc1".data ∧
      info.payment_type = .Lightning ∧
      info.is_reusable = false) :=
  resolve_end_to_end_stub _ _ _ ResolverConfig.defaultConfig "alice".data
    "example.com".data "1Addr".data "lnbc1".data none (by rfl) (by decide)
    (by rfl)

/-- Claim C1, counterexample: with metrics configured and a backend whose
resolution fails, `resolve_with_safety_checks` propagates the error but
records no resolution failure — the metrics value is untouched, its
`resolutions_total` and `resolutions_failed` both still 0 rather than 1;
`record_resolution_failure` is never called on this path. -/
theorem safety_checks_failure_records_nothing_counterexample :
    (Bip353Resolver.resolve_with_safety_checks
        (fun _ _ _ => .error (.HrnResolutionError "no record".data))
        (fun _ _ _ => .error (.HrnResolutionError "no record".data))
        { resolver_type := .DNS, config := ResolverConfig.defaultConfig } 0
        { cache := none, metrics := some Bip353Metrics.new }
        "alice".data "example.com".data).1 =
      .error (.DnsError "no record".data) ∧
    (Bip353Resolver.resolve_with_safety_checks
        (fun _ _ _ => .error (.HrnResolutionError "no record".data))
        (fun _ _ _ => .error (.HrnResolutionError "no record".data))
        { resolver_type := .DNS, config := ResolverConfig.defaultConfig } 0
        { cache := none, metrics := some Bip353Metrics.new }
        "alice".data "example.com".data).2.metrics =
      some Bip353Metrics.new ∧
    Bip353Metrics.new.resolutions_total = 0 ∧
    Bip353Metrics.new.resolutions_failed = 0 :=
  ⟨by rfl, by rfl, by rfl, by rfl⟩

/-- Claim C1, amended: whenever `resolve_with_safety_checks` fails, the
error is exactly the one returned by the underlying `resolve`, propagated
unchanged; nothing is inserted into the cache (the cache state is
untouched); and no resolution metrics are recorded on the failure path —
the metrics state changes only by the cache-miss counter recorded before
the resolution attempt, when a cache is configured. -/
theorem resolve_with_safety_checks_failure_path (dnsB httpB : Backend)
    (r : Bip353Resolver) (now : Nat) (st : ResolverMutState)
    (user domain : Str) (e : Bip353Error)
    (h : (r.resolve_with_safety_checks dnsB httpB now st user domain).1 =
      .error e) :
    r.resolve dnsB httpB user domain = .error e ∧
    (r.resolve_with_safety_checks dnsB httpB now st user domain).2.cache =
      st.cache ∧
    (r.resolve_with_safety_checks dnsB httpB now st user domain).2.metrics =
      (if st.cache.isSome then
        st.metrics.map (fun m => m.record_cache_miss)
       else st.metrics) := by
  rcases hst : st.cache with _ | cache
  · cases hres : r.resolve dnsB httpB user domain with
    | error e' =>
      simp only [Bip353Resolver.resolve_with_safety_checks, hst, hres] at h ⊢
      simp only [Except.error.injEq] at h
      subst h
      simp [hst]
    | ok pi =>
      simp only [Bip353Resolver.resolve_with_safety_checks, hst, hres] at h
      exact absurd h (by simp)
  · cases hget : cache.get now (user ++ '@' :: domain) with
    | some cached =>
      simp only [Bip353Resolver.resolve_with_safety_checks, hst, hget] at h
      exact absurd h (by simp)
    | none =>
      cases hres : r.resolve dnsB httpB user domain with
      | error e' =>
        simp only [Bip353Resolver.resolve_with_safety_checks, hst, hget,
          hres] at h ⊢
        simp only [Except.error.injEq] at h
        subst h
        simp [hst]
      | ok pi =>
        simp only [Bip353Resolver.resolve_with_safety_checks, hst, hget,
          hres] at h
        exact absurd h (by simp)

/-- Witness for the amended C1 theorem at a concrete failing backend. -/
theorem resolve_with_safety_checks_failure_path_witness :
    Bip353Resolver.resolve
        (fun _ _ _ => .error .InstructionsExpired)
        (fun _ _ _ => .error .InstructionsExpired)
        { resolver_type := .DNS, config := ResolverConfig.defaultConfig }
        "alice".data "example.com".data =
      .error (.InvalidRecord "Payment instructions have expired".data) ∧
    (Bip353Resolver.resolve_with_safety_checks
        (fun _ _ _ => .error .InstructionsExpired)
        (fun _ _ _ => .error .InstructionsExpired)
        { resolver_type := .DNS, config := ResolverConfig.defaultConfig } 0
        { cache := some (AddressCache.new 300), metrics := some Bip353Metrics.new }
        "alice".data "example.com".data).2.cache =
      some (AddressCache.new 300) ∧
    (Bip353Resolver.resolve_with_safety_checks
        (fun _ _ _ => .error .InstructionsExpired)
        (fun _ _ _ => .error .InstructionsExpired)
        { resolver_type := .DNS, config := ResolverConfig.defaultConfig } 0
        { cache := some (AddressCache.new 300), metrics := some Bip353Metrics.new }
        "alice".data "example.com".data).2.metrics =
      (if (some (AddressCache.new 300)).isSome then
        (some Bip353Metrics.new).map (fun m => m.record_cache_miss)
       else some Bip353Metrics.new) :=
  resolve_with_safety_checks_failure_path
    (fun _ _ _ => .error .InstructionsExpired)
    (fun _ _ _ => .error .InstructionsExpired)
    { resolver_type := .DNS, config := ResolverConfig.defaultConfig } 0
    { cache := some (AddressCache.new 300), metrics := some Bip353Metrics.new }
    "alice".data "example.com".data
    (.InvalidRecord "Payment instructions have expired".data) (by rfl)

lemma createWithNetworkShape {input : CStrInput} {r : Bip353Resolver}
    {st0 : ResolverMutState}
    (h : bip353_resolver_create_with_network input = some (r, st0)) :
    st0.cache = none ∧ st0.metrics = none := by
  cases input with
  | nullPtr => simp [bip353_resolver_create_with_network] at h
  | invalidUtf8 => simp [bip353_resolver_create_with_network] at h
  | valid s =>
    simp only [bip353_resolver_create_with_network] at h
    split at h
    · exact absurd h (by simp)
    · simp only [Bip353Resolver.with_config, Option.some.injEq,
        Prod.mk.injEq] at h
      rw [← h.2]
      exact ⟨rfl, rfl⟩

lemma rwscNoFeatures (dnsB httpB : Backend) (r : Bip353Resolver) (now : Nat)
    (st : ResolverMutState) (user domain : Str)
    (hc : st.cache = none) (hm : st.metrics = none) :
    r.resolve_with_safety_checks dnsB httpB now st user domain =
      ((r.resolve dnsB httpB user domain).map
        (fun pi => { payment_info := pi, warnings := [],
                     last_checked := now }), st) := by
  obtain ⟨stc, stm⟩ := st
  simp only at hc hm
  subst hc
  subst hm
  cases hres : r.resolve dnsB httpB user domain with
  | error e =>
    simp [Bip353Resolver.resolve_with_safety_checks, hres, Except.map]
  | ok pi =>
    simp [Bip353Resolver.resolve_with_safety_checks, hres, Except.map,
      Bip353Resolver.check_basic_warnings]

lemma safeFlatten (res : Except Bip353Error PaymentInfo) (now : Nat) :
    (res.map (fun pi =>
      ({ payment_info := pi
         warnings := []
         last_checked := now } : SafePaymentInfo))).map
      (fun s => s.payment_info) = res := by
  cases res <;> rfl

/-- Modelled from the claim: the FFI address-resolution call routed through
the safety-check layer — parse, `resolve_with_safety_checks`, flatten the
`SafePaymentInfo` to its payment info, and marshal the outcome exactly as
the foreign boundary does. -/
def routed_resolve_address_via_safety (dnsB httpB : Backend)
    (r : Bip353Resolver) (now : Nat) (st : ResolverMutState) (a : Str) :
    Option Bip353ResultRecord × ResolverMutState :=
  match parse_address a with
  | .error err => (create_result_ptr (.error err), st)
  | .ok (u, d) =>
    let out := r.resolve_with_safety_checks dnsB httpB now st u d
    (create_result_ptr (out.1.map (fun s => s.payment_info)), out.2)

/-- Modelled from the claim: the FFI user/domain resolution call routed
through the safety-check layer and flattened. -/
def routed_resolve_via_safety (dnsB httpB : Backend) (r : Bip353Resolver)
    (now : Nat) (st : ResolverMutState) (user domain : Str) :
    Option Bip353ResultRecord × ResolverMutState :=
  let out := r.resolve_with_safety_checks dnsB httpB now st user domain
  (create_result_ptr (out.1.map (fun s => s.payment_info)), out.2)

/-- Claim C2: for every resolver handle produced by the foreign boundary
(whose resolvers always carry no cache and no metrics) and every valid
address input, `bip353_resolve_address` and `bip353_resolve` produce
exactly the result record obtained by routing the call through
`resolve_with_safety_checks` and flattening its `SafePaymentInfo`; the
routed call leaves the resolver state unchanged. -/
theorem ffi_resolution_matches_safety_layer (dnsB httpB : Backend)
    (input : CStrInput) (r : Bip353Resolver) (st0 : ResolverMutState)
    (now : Nat) (a user domain : Str)
    (hcreate : bip353_resolver_create_with_network input = some (r, st0)) :
    (bip353_resolve_address dnsB httpB (some r) (.valid a) =
      (routed_resolve_address_via_safety dnsB httpB r now st0 a).1 ∧
     (routed_resolve_address_via_safety dnsB httpB r now st0 a).2 = st0) ∧
    (bip353_resolve dnsB httpB (some r) (.valid user) (.valid domain) =
      (routed_resolve_via_safety dnsB httpB r now st0 user domain).1 ∧
     (routed_resolve_via_safety dnsB httpB r now st0 user domain).2 = st0) := by
  obtain ⟨hc, hm⟩ := createWithNetworkShape hcreate
  constructor
  · cases hp : parse_address a with
    | error err =>
      constructor
      · simp [bip353_resolve_address, Bip353Resolver.resolve_address, hp,
          routed_resolve_address_via_safety]
      · simp [routed_resolve_address_via_safety, hp]
    | ok ud =>
      obtain ⟨u, d⟩ := ud
      have hno := rwscNoFeatures dnsB httpB r now st0 u d hc hm
      constructor
      · simp [bip353_resolve_address, Bip353Resolver.resolve_address, hp,
          routed_resolve_address_via_safety, hno, safeFlatten]
      · simp [routed_resolve_address_via_safety, hp, hno]
  · have hno := rwscNoFeatures dnsB httpB r now st0 user domain hc hm
    constructor
    · simp [bip353_resolve, routed_resolve_via_safety, hno, safeFlatten]
    · simp [routed_resolve_via_safety, hno]

/-- Witness for the C2 theorem: a handle created for "mainnet", a stub
backend and the address "alice@example.com". -/
theorem ffi_resolution_matches_safety_layer_witness :
    (bip353_resolve_address
        (fun _ _ _ => .ok (.FixedAmount
          { methods := [.OnChain "1Addr".data], max_amount := none }))
        (fun _ _ _ => .error .WrongNetwork)
        (some { resolver_type := .DNS, config := ResolverConfig.defaultConfig })
        (.valid "alice@example.com".data) =
      (routed_resolve_address_via_safety
        (fun _ _ _ => .ok (.FixedAmount
          { methods := [.OnChain "1Addr".data], max_amount := none }))
        (fun _ _ _ => .error .WrongNetwork)
        { resolver_type := .DNS, config := ResolverConfig.defaultConfig } 0
        { cache := none, metrics := none } "alice@example.com".data).1 ∧
     (routed_resolve_address_via_safety
        (fun _ _ _ => .ok (.FixedAmount
          { methods := [.OnChain "1Addr".data], max_amount := none }))
        (fun _ _ _ => .error .WrongNetwork)
        { resolver_type := .DNS, config := ResolverConfig.defaultConfig } 0
        { cache := none, metrics := none } "alice@example.com".data).2 =
      { cache := none, metrics := none }) ∧
    (bip353_resolve
        (fun _ _ _ => .ok (.FixedAmount
          { methods := [.OnChain "1Addr".data], max_amount := none }))
        (fun _ _ _ => .error .WrongNetwork)
        (some { resolver_type := .DNS, config := ResolverConfig.defaultConfig })
        (.valid "alice".data) (.valid "example.com".data) =
      (routed_resolve_via_safety
        (fun _ _ _ => .ok (.FixedAmount
          { methods := [.OnChain "1Addr".data], max_amount := none }))
        (fun _ _ _ => .error .WrongNetwork)
        { resolver_type := .DNS, config := ResolverConfig.defaultConfig } 0
        { cache := none, metrics := none } "alice".data "example.com".data).1 ∧
     (routed_resolve_via_safety
        (fun _ _ _ => .ok (.FixedAmount
          { methods := [.OnChain "1Addr".data], max_amount := none }))
        (fun _ _ _ => .error .WrongNetwork)
        { resolver_type := .DNS, config := ResolverConfig.defaultConfig } 0
        { cache := none, metrics := none } "alice".data "example.com".data).2 =
      { cache := none, metrics := none }) :=
  ffi_resolution_matches_safety_layer
    (fun _ _ _ => .ok (.FixedAmount
      { methods := [.OnChain "1Addr".data], max_amount := none }))
    (fun _ _ _ => .error .WrongNetwork)
    (.valid "mainnet".data)
    { resolver_type := .DNS, config := ResolverConfig.defaultConfig }
    { cache := none, metrics := none } 0 "alice@example.com".data
    "alice".data "example.com".data (by rfl)
